import Mathlib

/-!
Verification of the metadata-list resolution pipeline
(`packages/metadata-list/src/index.ts`).

The development shallowly embeds the module's logic:

* the `mapServiceRe` regular expression `^(.+?)(?:\/(\d+))?\/?$` as an
  executable matcher with JavaScript semantics (lazy group 1, preferred
  optional layer-id group, `.` not matching line terminators);
* JSON values as an inductive type, with `JSON.parse`'s reviver walk,
  the descriptor `reviver`, and the whole-service `sourceReviver`;
* a JSON text parser modelling `JSON.parse` on the JSON fragment the
  service emits (strings, integer numerals, arrays, objects, literals),
  producing V8-style `Unexpected token` messages;
* the two-fetch pipeline `getMapServiceMetadata`, parameterised by a
  fetch environment and instrumented with the list of requested URLs.
-/

/-- Character classified as a decimal digit, the class `\d` of the URL
regular expression. -/
def isJsDigit (c : Char) : Bool :=
  48 ≤ c.toNat && c.toNat ≤ 57

/-- Line terminators, which the unflagged JavaScript `.` does not match:
LF, CR, LINE SEPARATOR, PARAGRAPH SEPARATOR. -/
def isLineTerminator (c : Char) : Bool :=
  c = '\n' || c = '\r' || c.toNat = 8232 || c.toNat = 8233

/-- White-space class `\s` of JavaScript regular expressions. -/
def isJsWhitespace (c : Char) : Bool :=
  let n := c.toNat
  n = 32 || (9 ≤ n && n ≤ 13) || n = 160 || n = 5760 ||
    (8192 ≤ n && n ≤ 8202) || n = 8232 || n = 8233 || n = 8239 ||
    n = 8287 || n = 12288 || n = 65279

/-- Double-quote character. -/
def quoteChar : Char := Char.ofNat 34

/-- Backslash character. -/
def backslashChar : Char := Char.ofNat 92

/-- Opening-brace character. -/
def lbraceChar : Char := Char.ofNat 123

/-- Closing-brace character. -/
def rbraceChar : Char := Char.ofNat 125

/-- Numeric value of a digit character. -/
def digitVal (c : Char) : Nat := c.toNat - 48

/-- Value of a non-empty decimal digit string, the semantics of
`parseInt(s, 10)` on the digits captured by the regular expression. -/
def digitsToNat (ds : List Char) : Nat :=
  ds.foldl (fun a c => a * 10 + digitVal c) 0

/-- Matcher for the suffix `(?:\/(\d+))?\/?$` of `mapServiceRe` against the
part of the input after group 1.  Returns `none` when the suffix cannot
match, `some none` when it matches with the layer-id group absent, and
`some (some ds)` when the group captures the digits `ds`.  The group is
preferred present (greedy `?`), `\d+` is greedy, and after the digits only
an empty remainder or one final slash is accepted; the two alternatives can
never match the same remainder, so the preference is determinate. -/
def tailMatch (r : List Char) : Option (Option (List Char)) :=
  match r with
  | [] => some none
  | c :: rest =>
    if c = '/' then
      let ds := rest.takeWhile isJsDigit
      let t := rest.dropWhile isJsDigit
      if ds.isEmpty then (if rest.isEmpty then some none else none)
      else if t.isEmpty || t = ['/'] then some (some ds)
      else none
    else none

/-- Matcher for `mapServiceRe = /^(.+?)(?:\/(\d+))?\/?$/` with JavaScript
semantics.  Group 1 is lazy, so the shortest prefix (at least one
character, none of them a line terminator, since `.` excludes those) whose
remainder satisfies `tailMatch` wins.  Returns the text of group 1 and the
optional digits of group 2. -/
def matchMapServiceRe : List Char → Option (List Char × Option (List Char))
  | [] => none
  | c :: rest =>
    if isLineTerminator c then none
    else
      match tailMatch rest with
      | some cap => some ([c], cap)
      | none => (matchMapServiceRe rest).map (fun pc => (c :: pc.1, pc.2))

/-- URL decomposition performed at the top of `getMapServiceMetadata`:
the matched map-service URL (group 1) and the layer id parsed with
`parseInt` from group 2 when that group matched. -/
def parseUrl (url : String) : Option (String × Option Nat) :=
  (matchMapServiceRe url.data).map
    (fun pc => (String.mk pc.1, pc.2.map digitsToNat))

/-- Removal of a single trailing slash, the effect of
`url.replace(/\/?$/, "")`. -/
def trimSlashL : List Char → List Char
  | [] => []
  | [c] => if c = '/' then [] else [c]
  | c :: c2 :: rest => c :: trimSlashL (c2 :: rest)

/-- String form of `trimSlashL`. -/
def trimTrailingSlash (url : String) : String :=
  String.mk (trimSlashL url.data)

/-- Test used to state when the layer-id branch of `tailMatch` fires. -/
def tailDigitsHit (r : List Char) : Bool :=
  match tailMatch r with
  | some (some _) => true
  | _ => false

/-- Decidable test for a URL whose final path segment is a non-empty run
of decimal digits, optionally followed by one slash, with at least one
character before that segment: some strict non-empty prefix is followed by
a remainder on which the layer-id alternative of the tail matches. -/
def hasDigitTailB : List Char → Bool
  | [] => false
  | _ :: rest => tailDigitsHit rest || hasDigitTailB rest

/-- JSON values: the data produced by `JSON.parse`.  Numbers are modelled
as integers, which covers every numeral the map service protocol uses
(layer ids and version counts). -/
inductive JsonValue where
  | str (s : String)
  | num (n : Int)
  | bool (b : Bool)
  | null
  | arr (vs : List JsonValue)
  | obj (fields : List (String × JsonValue))
deriving Repr

mutual

/-- Reviver walk of `JSON.parse(text, reviver)`: children of arrays and
objects are revived first (array keys are the decimal index strings,
object keys the property names), then the reviver is applied to the node
itself.  The root is processed with the key `""`. -/
def walkVal (f : String → JsonValue → JsonValue) (key : String) :
    JsonValue → JsonValue
  | .arr vs => f key (.arr (walkArr f 0 vs))
  | .obj fs => f key (.obj (walkObj f fs))
  | v => f key v

/-- Reviver walk over array elements, numbering keys from `i`. -/
def walkArr (f : String → JsonValue → JsonValue) (i : Nat) :
    List JsonValue → List JsonValue
  | [] => []
  | v :: vs => walkVal f (toString i) v :: walkArr f (i + 1) vs

/-- Reviver walk over object fields. -/
def walkObj (f : String → JsonValue → JsonValue) :
    List (String × JsonValue) → List (String × JsonValue)
  | [] => []
  | (k, v) :: fs => (k, walkVal f k v) :: walkObj f fs

end

/-- Full reviver application of `JSON.parse(text, f)` to a parsed value:
walk the tree bottom-up and finish with the root key `""`. -/
def applyReviver (f : String → JsonValue → JsonValue) (v : JsonValue) :
    JsonValue :=
  walkVal f "" v

mutual

/-- JavaScript string conversion of a JSON value, the semantics of the
template-literal interpolation of the first array element in
`sourceReviver`.  Arrays convert by joining element conversions with
commas (null elements become the empty string); objects convert to
`[object Object]`. -/
def jsToString : JsonValue → String
  | .str s => s
  | .num n => toString n
  | .bool b => if b then "true" else "false"
  | .null => "null"
  | .obj _ => "[object Object]"
  | .arr vs => String.intercalate "," (jsToStringList vs)

/-- Element conversions used by the array case of `jsToString`. -/
def jsToStringList : List JsonValue → List String
  | [] => []
  | .null :: vs => "" :: jsToStringList vs
  | v :: vs => jsToString v :: jsToStringList vs

end

/-- Lower-casing of an ASCII letter; other characters are unchanged.
This is the canonicalisation performed by the `i` flag of a non-Unicode
JavaScript regular expression on the ASCII literals of `listPropNames`. -/
def asciiLowerChar (c : Char) : Char :=
  if 65 ≤ c.toNat && c.toNat ≤ 90 then Char.ofNat (c.toNat + 32) else c

/-- ASCII lower-casing of a whole string. -/
def asciiLower (s : String) : String :=
  String.mk (s.data.map asciiLowerChar)

/-- Case-insensitive literal matcher: consume the literal `lit` from the
front of `cs` comparing characters up to ASCII case, returning the rest
on success. -/
def matchCI : List Char → List Char → Option (List Char)
  | [], cs => some cs
  | _ :: _, [] => none
  | l :: ls, c :: cs =>
    if asciiLowerChar l = asciiLowerChar c then matchCI ls cs else none

/-- Test of the anchored alternation
`/^(?:(?:keywords)|(?:supported((Extensions)|(ImageFormatTypes)))|(?:capabilities))$/i`
used by the descriptor reviver: the whole key must equal, up to case, one
of `keywords`, `supported` followed by `Extensions` or
`ImageFormatTypes`, or `capabilities`. -/
def listPropNamesTest (key : String) : Bool :=
  (matchCI ("keywords").data key.data = some []) ||
  (match matchCI ("supported").data key.data with
   | some rest =>
     (matchCI ("Extensions").data rest = some []) ||
       (matchCI ("ImageFormatTypes").data rest = some [])
   | none => false) ||
  (matchCI ("capabilities").data key.data = some [])

/-- Splitting at every comma, keeping empty pieces, the skeleton of
`String.prototype.split`. -/
def splitOnComma : List Char → List (List Char)
  | [] => [[]]
  | c :: rest =>
    if c = ',' then [] :: splitOnComma rest
    else
      match splitOnComma rest with
      | [] => [[c]]
      | p :: ps => (c :: p) :: ps

/-- Semantics of `value.split(/,\s*/)`: the separator matches are exactly
the commas together with the whitespace run following each comma (no
comma can be absorbed by `\s*`), so the result is the comma-split pieces
with the leading whitespace stripped from every piece after the first. -/
def splitCommaWs (s : String) : List String :=
  match splitOnComma s.data with
  | [] => []
  | p :: ps =>
    String.mk p :: ps.map (fun q => String.mk (q.dropWhile isJsWhitespace))

/-- Descriptor reviver of `getMapServiceData`: string values of the keys
matched by `listPropNames` are split on `/,\s*/`; everything else is
returned unchanged. -/
def reviver (key : String) (value : JsonValue) : JsonValue :=
  match value with
  | .str s =>
    if listPropNamesTest key then .arr ((splitCommaWs s).map .str)
    else .str s
  | v => v

/-- Name of the layer-metadata capability. -/
def layerMetadataCapability : String := "LayerMetadata"

/-- Metadata document URL built by `makeMetadataUrl`. -/
def makeMetadataUrl (serviceUrl : String) (id : Nat) : String :=
  serviceUrl ++ "/exts/" ++ layerMetadataCapability ++ "/metadata/" ++
    toString id

/-- Whole-service reviver: a non-empty array value is replaced by the
metadata URL for its (revived) first element, interpolated with
JavaScript string conversion; every other value passes through. -/
def sourceReviver (mapServiceUrl : String) (_key : String)
    (value : JsonValue) : JsonValue :=
  match value with
  | .arr (id :: _) =>
    .str (mapServiceUrl ++ "/exts/" ++ layerMetadataCapability ++
      "/metadata/" ++ jsToString id)
  | v => v

/-- JavaScript truthiness of a JSON value. -/
def jsTruthy : JsonValue → Bool
  | .null => false
  | .bool b => b
  | .num n => n != 0
  | .str s => !s.isEmpty
  | .arr _ => true
  | .obj _ => true

/-- Property lookup on the field list of a parsed JSON object. -/
def lookupField (fs : List (String × JsonValue)) (k : String) :
    Option JsonValue :=
  (fs.find? (fun kv => kv.1 = k)).map (fun kv => kv.2)

/-- Substring test, the semantics of `String.prototype.includes`. -/
def jsStrIncludes (s pat : String) : Bool :=
  2 ≤ (s.splitOn pat).length || pat.isEmpty

/-- Semantics of `value.includes(tok)` for a string token `tok`: on an
array, a strict-equality element search; on a string, a substring test;
on any other receiver the property is not a function and the call throws
a `TypeError`. -/
def jsIncludesStr (v : JsonValue) (tok : String) : Except String Bool :=
  match v with
  | .arr xs =>
    .ok (xs.any (fun x =>
      match x with
      | .str s => s = tok
      | _ => false))
  | .str s => .ok (jsStrIncludes s tok)
  | _ => .error "TypeError: includes is not a function"

/-- Capability check `supportsLayerMetadata`:
`!!(msInfo.supportedExtensions && msInfo.supportedExtensions.includes(layerMetadataCapability))`.
A missing or falsy field short-circuits to `false`; reading a property of
`null` throws; a truthy non-array, non-string field makes the `includes`
call throw. -/
def supportsLayerMetadata (msInfo : JsonValue) : Except String Bool :=
  match msInfo with
  | .null => .error "TypeError: Cannot read properties of null"
  | .obj fs =>
    match lookupField fs "supportedExtensions" with
    | none => .ok false
    | some v =>
      if jsTruthy v then jsIncludesStr v layerMetadataCapability
      else .ok false
  | _ => .ok false

/-- Check guarding the single-layer loop body:
`layerIds && layerIds.length && layerIds.includes(layerId)`.  Arrays pass
when non-empty and containing the number `layerId` under strict equality;
strings pass when non-empty and containing the decimal text of `layerId`;
numbers, booleans and `null` are skipped (falsy value or undefined
`length`); objects with a truthy `length` property make the `includes`
call throw. -/
def layerIdsCheck (layerId : Nat) (layerIds : JsonValue) :
    Except String Bool :=
  match layerIds with
  | .arr vs =>
    if vs.isEmpty then .ok false
    else
      .ok (vs.any (fun x =>
        match x with
        | .num m => m = (layerId : Int)
        | _ => false))
  | .str s =>
    if s.isEmpty then .ok false
    else .ok (jsStrIncludes s (toString layerId))
  | .obj fs =>
    match lookupField fs "length" with
    | none => .ok false
    | some lv =>
      if jsTruthy lv then .error "TypeError: includes is not a function"
      else .ok false
  | _ => .ok false

/-- Single-layer scan of `getMapServiceMetadata`: iterate the own
enumerable properties in order; on the first value passing
`layerIdsCheck`, return the one-entry object mapping that dataset to its
metadata URL and stop; return `null` (here `none`) when no property
passes. -/
def scanLayerSources (mapServiceUrl : String) (layerId : Nat) :
    List (String × JsonValue) → Except String (Option JsonValue)
  | [] => .ok none
  | (dataset, layerIds) :: rest =>
    match layerIdsCheck layerId layerIds with
    | .error e => .error e
    | .ok true =>
      .ok (some (.obj [(dataset, .str (makeMetadataUrl mapServiceUrl layerId))]))
    | .ok false => scanLayerSources mapServiceUrl layerId rest

/-- Canonical-array-index test of ECMAScript property keys: a non-empty
all-digit string with no leading zero (except `0` itself) whose value is
below `2^32 - 1`.  Such keys are enumerated before all other own keys. -/
def isArrayIndexKey (k : String) : Bool :=
  (!k.data.isEmpty) && k.data.all isJsDigit &&
    (k.data = ['0'] || !(k.data.head? = some '0')) &&
    digitsToNat k.data < 4294967295

/-- Insertion step of the ascending numeric ordering of array-index
keys. -/
def insertByIndex (kv : String × JsonValue) :
    List (String × JsonValue) → List (String × JsonValue)
  | [] => [kv]
  | kv2 :: rest =>
    if digitsToNat kv.1.data < digitsToNat kv2.1.data then kv :: kv2 :: rest
    else kv2 :: insertByIndex kv rest

/-- Insertion sort of array-index keys by ascending numeric value. -/
def sortByIndex : List (String × JsonValue) → List (String × JsonValue)
  | [] => []
  | kv :: rest => insertByIndex kv (sortByIndex rest)

/-- ECMAScript own-property enumeration order of a parsed object's
fields: keys that are canonical array indices come first, in ascending
numeric order, followed by the remaining keys in insertion (document)
order. -/
def jsEnumFields (fs : List (String × JsonValue)) :
    List (String × JsonValue) :=
  sortByIndex (fs.filter (fun kv => isArrayIndexKey kv.1)) ++
    fs.filter (fun kv => !isArrayIndexKey kv.1)

/-- Own enumerable properties visited by `for (const dataset in x)`, in
enumeration order: the fields of an object with array-index keys first
in ascending order, the indexed elements of an array, the indexed
one-character strings of a string, and nothing for the primitives. -/
def forInFields : JsonValue → List (String × JsonValue)
  | .obj fs => jsEnumFields fs
  | .arr vs => vs.enum.map (fun p => (toString p.1, p.2))
  | .str s => s.data.enum.map (fun p => (toString p.1, .str (String.mk [p.2])))
  | _ => []

/-- JSON white-space characters accepted between tokens. -/
def isJsonWs (c : Char) : Bool :=
  c = ' ' || c = '\t' || c = '\n' || c = '\r'

/-- Skip JSON white-space, tracking the character position. -/
def skipWs : List Char → Nat → List Char × Nat
  | [], p => ([], p)
  | c :: rest, p =>
    if isJsonWs c then skipWs rest (p + 1) else (c :: rest, p)

/-- V8-style `JSON.parse` message for an unexpected character or a
premature end of input. -/
def unexpectedTok (cs : List Char) (p : Nat) : String :=
  match cs with
  | [] => "Unexpected end of JSON input"
  | c :: _ =>
    "Unexpected token " ++ String.mk [c] ++ " in JSON at position " ++
      toString p

/-- Value of a hexadecimal digit. -/
def hexVal (c : Char) : Option Nat :=
  if 48 ≤ c.toNat && c.toNat ≤ 57 then some (c.toNat - 48)
  else if 97 ≤ c.toNat && c.toNat ≤ 102 then some (c.toNat - 87)
  else if 65 ≤ c.toNat && c.toNat ≤ 70 then some (c.toNat - 55)
  else none

/-- JSON string-literal body parser; `cs` starts after the opening quote
and `acc` holds the decoded characters in reverse. -/
def parseStringLit : List Char → Nat → List Char →
    Except String (String × List Char × Nat)
  | [], _, _ => .error "Unexpected end of JSON input"
  | c :: rest, p, acc =>
    if c = quoteChar then .ok (String.mk acc.reverse, rest, p + 1)
    else if c = backslashChar then
      match rest with
      | [] => .error "Unexpected end of JSON input"
      | e :: rest2 =>
        if e = quoteChar || e = backslashChar || e = '/' then
          parseStringLit rest2 (p + 2) (e :: acc)
        else if e = 'b' then parseStringLit rest2 (p + 2) (Char.ofNat 8 :: acc)
        else if e = 'f' then parseStringLit rest2 (p + 2) (Char.ofNat 12 :: acc)
        else if e = 'n' then parseStringLit rest2 (p + 2) ('\n' :: acc)
        else if e = 'r' then parseStringLit rest2 (p + 2) ('\r' :: acc)
        else if e = 't' then parseStringLit rest2 (p + 2) ('\t' :: acc)
        else if e = 'u' then
          match rest2 with
          | h1 :: h2 :: h3 :: h4 :: rest3 =>
            match hexVal h1, hexVal h2, hexVal h3, hexVal h4 with
            | some a, some b, some c3, some d =>
              parseStringLit rest3 (p + 6)
                (Char.ofNat (((a * 16 + b) * 16 + c3) * 16 + d) :: acc)
            | _, _, _, _ =>
              .error ("Bad Unicode escape in JSON at position " ++ toString p)
          | _ => .error "Unexpected end of JSON input"
        else
          .error ("Bad escaped character in JSON at position " ++
            toString (p + 1))
    else if c.toNat < 32 then
      .error ("Bad control character in string literal in JSON at position " ++
        toString p)
    else parseStringLit rest (p + 1) (c :: acc)

/-- JSON numeral parser; `cs` starts at a minus sign or a digit.  The
model is restricted to the integer numerals the service protocol emits:
a fraction or exponent marker is rejected rather than approximated. -/
def parseNum (cs : List Char) (p : Nat) :
    Except String (JsonValue × List Char × Nat) :=
  match cs with
  | [] => .error "Unexpected end of JSON input"
  | c :: rest =>
    let body := if c = '-' then rest else cs
    let ds := body.takeWhile isJsDigit
    let rest2 := body.dropWhile isJsDigit
    if ds.isEmpty then .error (unexpectedTok cs p)
    else if 2 ≤ ds.length && ds.head? = some '0' then
      .error ("Unexpected number in JSON at position " ++ toString (p + 1))
    else
      match rest2 with
      | c2 :: _ =>
        if c2 = '.' || c2 = 'e' || c2 = 'E' then
          .error "non-integer numeral outside the scope of this model"
        else
          .ok (.num (if c = '-' then -(digitsToNat ds : Int) else
            (digitsToNat ds : Int)), rest2,
            p + (if c = '-' then 1 else 0) + ds.length)
      | [] =>
        .ok (.num (if c = '-' then -(digitsToNat ds : Int) else
          (digitsToNat ds : Int)), rest2,
          p + (if c = '-' then 1 else 0) + ds.length)

/-- Insertion of an object member: assigning an existing property keeps
its position and updates the value, a new property is appended — the
property order `JSON.parse` gives an object with duplicate keys. -/
def insertField (fs : List (String × JsonValue)) (k : String)
    (v : JsonValue) : List (String × JsonValue) :=
  if fs.any (fun kv => kv.1 = k) then
    fs.map (fun kv => if kv.1 = k then (kv.1, v) else kv)
  else fs ++ [(k, v)]

mutual

/-- JSON value parser with fuel; fuel `input length + 1` always
suffices because every recursive call consumes at least one character. -/
def parseVal : Nat → List Char → Nat →
    Except String (JsonValue × List Char × Nat)
  | 0, cs, p => .error (unexpectedTok cs p)
  | Nat.succ fuel, cs, p =>
    match cs with
    | [] => .error "Unexpected end of JSON input"
    | c :: rest =>
      if c = quoteChar then
        match parseStringLit rest (p + 1) [] with
        | .error e => .error e
        | .ok (s, rest2, p2) => .ok (.str s, rest2, p2)
      else if c = lbraceChar then
        let s1 := skipWs rest (p + 1)
        match s1.1 with
        | c1 :: rest1 =>
          if c1 = rbraceChar then .ok (.obj [], rest1, s1.2 + 1)
          else parseMembers fuel s1.1 s1.2 []
        | [] => .error "Unexpected end of JSON input"
      else if c = '[' then
        let s1 := skipWs rest (p + 1)
        match s1.1 with
        | c1 :: rest1 =>
          if c1 = ']' then .ok (.arr [], rest1, s1.2 + 1)
          else parseElements fuel s1.1 s1.2 []
        | [] => .error "Unexpected end of JSON input"
      else if c = 't' then
        match cs with
        | 't' :: 'r' :: 'u' :: 'e' :: rest2 => .ok (.bool true, rest2, p + 4)
        | _ => .error (unexpectedTok cs p)
      else if c = 'f' then
        match cs with
        | 'f' :: 'a' :: 'l' :: 's' :: 'e' :: rest2 =>
          .ok (.bool false, rest2, p + 5)
        | _ => .error (unexpectedTok cs p)
      else if c = 'n' then
        match cs with
        | 'n' :: 'u' :: 'l' :: 'l' :: rest2 => .ok (.null, rest2, p + 4)
        | _ => .error (unexpectedTok cs p)
      else if c = '-' || isJsDigit c then parseNum cs p
      else .error (unexpectedTok cs p)

/-- Object member list parser; `cs` starts at the first character of a
(prospective) member key. -/
def parseMembers : Nat → List Char → Nat → List (String × JsonValue) →
    Except String (JsonValue × List Char × Nat)
  | 0, cs, p, _ => .error (unexpectedTok cs p)
  | Nat.succ fuel, cs, p, acc =>
    match cs with
    | [] => .error "Unexpected end of JSON input"
    | c :: rest =>
      if c = quoteChar then
        match parseStringLit rest (p + 1) [] with
        | .error e => .error e
        | .ok (k, rest2, p2) =>
          let s3 := skipWs rest2 p2
          match s3.1 with
          | c3 :: rest3 =>
            if c3 = ':' then
              let s4 := skipWs rest3 (s3.2 + 1)
              match parseVal fuel s4.1 s4.2 with
              | .error e => .error e
              | .ok (v, rest5, p5) =>
                let acc2 := insertField acc k v
                let s6 := skipWs rest5 p5
                match s6.1 with
                | c6 :: rest6 =>
                  if c6 = ',' then
                    let s7 := skipWs rest6 (s6.2 + 1)
                    parseMembers fuel s7.1 s7.2 acc2
                  else if c6 = rbraceChar then .ok (.obj acc2, rest6, s6.2 + 1)
                  else .error (unexpectedTok s6.1 s6.2)
                | [] => .error "Unexpected end of JSON input"
            else .error (unexpectedTok s3.1 s3.2)
          | [] => .error "Unexpected end of JSON input"
      else .error (unexpectedTok cs p)

/-- Array element list parser; `cs` starts at the first character of a
(prospective) element. -/
def parseElements : Nat → List Char → Nat → List JsonValue →
    Except String (JsonValue × List Char × Nat)
  | 0, cs, p, _ => .error (unexpectedTok cs p)
  | Nat.succ fuel, cs, p, acc =>
    match parseVal fuel cs p with
    | .error e => .error e
    | .ok (v, rest, p2) =>
      let s3 := skipWs rest p2
      match s3.1 with
      | c3 :: rest3 =>
        if c3 = ',' then
          let s4 := skipWs rest3 (s3.2 + 1)
          parseElements fuel s4.1 s4.2 (v :: acc)
        else if c3 = ']' then .ok (.arr (v :: acc).reverse, rest3, s3.2 + 1)
        else .error (unexpectedTok s3.1 s3.2)
      | [] => .error "Unexpected end of JSON input"

end

/-- Model of `JSON.parse` on a body text: parse one value surrounded by
optional white-space; anything left over is an error. -/
def jsonParse (text : String) : Except String JsonValue :=
  let s0 := skipWs text.data 0
  match parseVal (text.data.length + 1) s0.1 s0.2 with
  | .error e => .error e
  | .ok (v, rest, p2) =>
    let s1 := skipWs rest p2
    match s1.1 with
    | [] => .ok v
    | _ => .error (unexpectedTok s1.1 s1.2)

/-- Failure modes of the modelled JavaScript execution: a thrown
`Error`, a `SyntaxError` escaping `JSON.parse`, and a rejected fetch. -/
inductive JsError where
  | generic (msg : String)
  | parseFail (msg : String)
  | network
deriving Repr, DecidableEq

/-- Fetch environment: the body text each URL responds with, or `none`
for a network failure. -/
structure FetchEnv where
  fetch : String → Option String

/-- Descriptor fetch `getMapServiceData`: request `url?f=json`, read the
body text, and parse it with the descriptor reviver. -/
def getMapServiceData (env : FetchEnv) (url : String) :
    Except JsError JsonValue :=
  match env.fetch (url ++ "?f=json") with
  | none => .error .network
  | some body =>
    match jsonParse body with
    | .error msg => .error (.parseFail msg)
    | .ok raw => .ok (applyReviver reviver raw)

/-- Pipeline `getMapServiceMetadata`, modelled over a fetch environment.
The first component is the settled promise (`.ok none` models a `null`
resolution); the second lists the URLs requested, in order. -/
def getMapServiceMetadata (env : FetchEnv) (url : String) :
    Except JsError (Option JsonValue) × List String :=
  match matchMapServiceRe url.data with
  | none => (.error (.generic "Unrecognized URL format."), [])
  | some mc =>
    let mapServiceUrl := String.mk mc.1
    let layerId := mc.2.map digitsToNat
    let descUrl := mapServiceUrl ++ "?f=json"
    match getMapServiceData env mapServiceUrl with
    | .error e => (.error e, [descUrl])
    | .ok mapServiceData =>
      match supportsLayerMetadata mapServiceData with
      | .error msg => (.error (.generic msg), [descUrl])
      | .ok supported =>
        if supported then
          let layerSourcesUrl :=
            trimTrailingSlash url ++ "/exts/" ++ layerMetadataCapability ++
              "/layerSources?f=json"
          match env.fetch layerSourcesUrl with
          | none => (.error .network, [descUrl, layerSourcesUrl])
          | some body =>
            match layerId with
            | some lid =>
              match jsonParse body with
              | .error msg =>
                (.error (.parseFail msg), [descUrl, layerSourcesUrl])
              | .ok metadataLayers =>
                match scanLayerSources mapServiceUrl lid
                    (forInFields metadataLayers) with
                | .error msg =>
                  (.error (.generic msg), [descUrl, layerSourcesUrl])
                | .ok res => (.ok res, [descUrl, layerSourcesUrl])
            | none =>
              match jsonParse body with
              | .error msg =>
                (.error (.parseFail msg), [descUrl, layerSourcesUrl])
              | .ok raw =>
                (.ok (some (applyReviver (sourceReviver mapServiceUrl) raw)),
                  [descUrl, layerSourcesUrl])
        else (.ok none, [descUrl])

/-- A run of digit characters followed by an empty or single-slash tail is
taken whole by `takeWhile`, leaving exactly the tail. -/
theorem takeWhile_digits_run (ds t : List Char)
    (hds : ∀ c ∈ ds, isJsDigit c = true) (ht : t = [] ∨ t = ['/']) :
    (ds ++ t).takeWhile isJsDigit = ds ∧ (ds ++ t).dropWhile isJsDigit = t := by
  induction ds with
  | nil =>
    rcases ht with rfl | rfl
    · exact ⟨rfl, rfl⟩
    · exact ⟨rfl, rfl⟩
  | cons d ds ih =>
    have hd : isJsDigit d = true := hds d (List.mem_cons_self d ds)
    have ih2 := ih (fun c hc => hds c (List.mem_cons_of_mem d hc))
    simp [List.takeWhile_cons, List.dropWhile_cons, hd, ih2.1, ih2.2]

/-- Dropping digits from a list containing a slash followed by a non-empty
remainder leaves at least two characters. -/
theorem dropWhile_digits_length (m u : List Char) (hu : u ≠ []) :
    2 ≤ ((m ++ '/' :: u).dropWhile isJsDigit).length := by
  induction m with
  | nil =>
    have hslash : isJsDigit '/' = false := by decide
    simp only [List.nil_append, List.dropWhile_cons, hslash]
    cases u with
    | nil => exact absurd rfl hu
    | cons a as => simp
  | cons a m ih =>
    simp only [List.cons_append, List.dropWhile_cons]
    by_cases ha : isJsDigit a = true
    · simpa [ha] using ih
    · simp only [ha, Bool.false_eq_true, if_false, List.length_cons,
        List.length_append, List.length_cons]
      omega

/-- The layer-id tail cannot match when more than one path segment
follows group 1: a non-empty piece before a slash and a non-empty piece
after it defeat every alternative of `tailMatch`. -/
theorem tailMatch_inner_none (m u : List Char) (hm : m ≠ []) (hu : u ≠ []) :
    tailMatch (m ++ '/' :: u) = none := by
  cases m with
  | nil => exact absurd rfl hm
  | cons c m' =>
    by_cases hc : c = '/'
    · subst hc
      have hlen : 2 ≤ ((m' ++ '/' :: u).dropWhile isJsDigit).length :=
        dropWhile_digits_length m' u hu
      simp only [List.cons_append, tailMatch, if_pos rfl]
      by_cases hds : (m' ++ '/' :: u).takeWhile isJsDigit = []
      · have hne : ¬(m' ++ '/' :: u) = [] := by simp
        simp [hds, List.isEmpty_iff, hne]
      · have h1 : ¬((m' ++ '/' :: u).dropWhile isJsDigit).isEmpty = true := by
          rw [List.isEmpty_iff]
          intro h
          rw [h] at hlen
          simp at hlen
        have h2 : ¬(m' ++ '/' :: u).dropWhile isJsDigit = ['/'] := by
          intro h
          rw [h] at hlen
          simp at hlen
        simp [hds, List.isEmpty_iff, h1, h2]
    · simp [tailMatch, hc]

/-- The layer-id tail matches a slash, digits, and at most one final
slash, capturing exactly the digits. -/
theorem tailMatch_digits (ds t : List Char) (hne : ds ≠ [])
    (hds : ∀ c ∈ ds, isJsDigit c = true) (ht : t = [] ∨ t = ['/']) :
    tailMatch ('/' :: (ds ++ t)) = some (some ds) := by
  have h := takeWhile_digits_run ds t hds ht
  simp only [tailMatch, if_pos rfl, h.1, h.2]
  have h1 : ¬ds.isEmpty = true := by
    rw [List.isEmpty_iff]; exact hne
  rcases ht with rfl | rfl
  · simp [h1]
  · simp [h1]

/-- Unfolding equation of the matcher on a non-empty input. -/
theorem matchRe_cons (c : Char) (rest : List Char) :
    matchMapServiceRe (c :: rest) =
      if isLineTerminator c then none
      else
        match tailMatch rest with
        | some cap => some ([c], cap)
        | none =>
          (matchMapServiceRe rest).map (fun pc => (c :: pc.1, pc.2)) := rfl

/-- Lazy group 1 stops exactly at the final digit segment: for a URL of
the shape `base / digits (/)` with a non-empty base free of line
terminators, the match returns the base and captures the digits. -/
theorem matchRe_digit_tail (b ds t : List Char) (hb : b ≠ [])
    (hlt : ∀ c ∈ b, isLineTerminator c = false) (hne : ds ≠ [])
    (hds : ∀ c ∈ ds, isJsDigit c = true) (ht : t = [] ∨ t = ['/']) :
    matchMapServiceRe (b ++ '/' :: (ds ++ t)) = some (b, some ds) := by
  induction b with
  | nil => exact absurd rfl hb
  | cons c b' ih =>
    have hc : isLineTerminator c = false := hlt c (List.mem_cons_self c b')
    cases b' with
    | nil =>
      rw [List.cons_append, List.nil_append, matchRe_cons,
        tailMatch_digits ds t hne hds ht]
      simp [hc]
    | cons c2 b'' =>
      have hinner : tailMatch ((c2 :: b'') ++ '/' :: (ds ++ t)) = none :=
        tailMatch_inner_none (c2 :: b'') (ds ++ t) (by simp)
          (by rcases ht with rfl | rfl <;> simp [hne])
      have ih2 := ih (by simp)
        (fun x hx => hlt x (List.mem_cons_of_mem c hx))
      simp only [List.cons_append] at ih2 hinner ⊢
      rw [matchRe_cons, hinner, ih2]
      simp [hc]

/-- A group-absent tail match happens only on an empty remainder or a
single slash. -/
theorem tailMatch_some_none (r : List Char) (h : tailMatch r = some none) :
    r = [] ∨ r = ['/'] := by
  cases r with
  | nil => exact Or.inl rfl
  | cons c rest =>
    by_cases hc : c = '/'
    · subst hc
      cases rest with
      | nil => exact Or.inr rfl
      | cons a as =>
        exfalso
        simp only [tailMatch, if_pos rfl] at h
        by_cases hds : ((a :: as).takeWhile isJsDigit).isEmpty = true
        · simp [hds] at h
        · simp only [hds, Bool.false_eq_true, if_false] at h
          split at h <;> simp_all
    · simp [tailMatch, hc] at h

/-- Digit-tail test unfolds on a non-empty list. -/
theorem hasDigitTailB_cons (c : Char) (rest : List Char) :
    hasDigitTailB (c :: rest) = (tailDigitsHit rest || hasDigitTailB rest) := rfl

/-- For a non-empty input other than the single slash, free of line
terminators and with no all-digit final segment, the match succeeds with
the layer-id group absent and group 1 equal to the input less one
trailing slash. -/
theorem matchRe_no_digit_tail (s : List Char) (hs : s ≠ []) (hs2 : s ≠ ['/'])
    (hlt : ∀ c ∈ s, isLineTerminator c = false)
    (hnd : hasDigitTailB s = false) :
    matchMapServiceRe s = some (trimSlashL s, none) := by
  induction s with
  | nil => exact absurd rfl hs
  | cons c rest ih =>
    have hc : isLineTerminator c = false := hlt c (List.mem_cons_self c rest)
    rw [hasDigitTailB_cons, Bool.or_eq_false_iff] at hnd
    match htm : tailMatch rest with
    | some (some ds) =>
      exfalso
      have hhit : tailDigitsHit rest = true := by
        simp [tailDigitsHit, htm]
      rw [hhit] at hnd
      exact Bool.true_eq_false.mp hnd.1
    | some none =>
      rcases tailMatch_some_none rest htm with rfl | rfl
      · have hcs : ¬c = '/' := fun h => hs2 (by rw [h])
        rw [matchRe_cons]
        simp [hc, htm, trimSlashL, hcs]
      · rw [matchRe_cons]
        simp [hc, htm, trimSlashL]
    | none =>
      have hrne : rest ≠ [] := by
        intro h
        rw [h] at htm
        simp [tailMatch] at htm
      have hrs : rest ≠ ['/'] := by
        intro h
        rw [h] at htm
        simp [tailMatch] at htm
      have ih2 := ih hrne hrs (fun x hx => hlt x (List.mem_cons_of_mem c hx))
        hnd.2
      have htrim : trimSlashL (c :: rest) = c :: trimSlashL rest := by
        cases rest with
        | nil => exact absurd rfl hrne
        | cons a as => rfl
      rw [matchRe_cons]
      simp [hc, htm, ih2, htrim]

/-- Every non-empty input free of line terminators is matched by
`mapServiceRe`. -/
theorem matchRe_isSome (s : List Char) (hs : s ≠ [])
    (hlt : ∀ c ∈ s, isLineTerminator c = false) :
    (matchMapServiceRe s).isSome = true := by
  induction s with
  | nil => exact absurd rfl hs
  | cons c rest ih =>
    have hc : isLineTerminator c = false := hlt c (List.mem_cons_self c rest)
    match htm : tailMatch rest with
    | some cap =>
      rw [matchRe_cons]
      simp [hc, htm]
    | none =>
      have hrne : rest ≠ [] := by
        intro h
        rw [h] at htm
        simp [tailMatch] at htm
      have ih2 := ih hrne (fun x hx => hlt x (List.mem_cons_of_mem c hx))
      rw [Option.isSome_iff_exists] at ih2
      obtain ⟨pc, hpc⟩ := ih2
      rw [matchRe_cons]
      simp [hc, htm, hpc]

/-- Membership test characterising the loop guard on an array-valued
dataset entry: the array contains the layer id as a number. -/
def layerIdsHasNum (layerId : Nat) (v : JsonValue) : Bool :=
  match v with
  | .arr vs =>
    vs.any (fun x =>
      match x with
      | .num m => m = (layerId : Int)
      | _ => false)
  | _ => false

/-- On an array value the loop guard never throws and reduces to the
membership test (an empty array fails both). -/
theorem layerIdsCheck_arr (lid : Nat) (vs : List JsonValue) :
    layerIdsCheck lid (.arr vs) = .ok (layerIdsHasNum lid (.arr vs)) := by
  cases vs with
  | nil => rfl
  | cons a as => rfl

/-- On dataset lists whose values are all arrays the single-layer scan is
the first-match search: it returns the one-entry object for the first
dataset whose array contains the layer id, and `none` when there is no
such dataset. -/
theorem scanLayerSources_arrays (u : String) (lid : Nat)
    (fs : List (String × JsonValue))
    (h : ∀ kv ∈ fs, ∃ vs, kv.2 = JsonValue.arr vs) :
    scanLayerSources u lid fs = .ok
      (match fs.find? (fun kv => layerIdsHasNum lid kv.2) with
       | some kv => some (.obj [(kv.1, .str (makeMetadataUrl u lid))])
       | none => none) := by
  induction fs with
  | nil => rfl
  | cons kv rest ih =>
    obtain ⟨vs, hvs⟩ := h kv (List.mem_cons_self kv rest)
    obtain ⟨k, v⟩ := kv
    simp only at hvs
    subst hvs
    have ih2 := ih (fun x hx => h x (List.mem_cons_of_mem _ hx))
    cases hb : layerIdsHasNum lid (JsonValue.arr vs) with
    | true =>
      simp only [scanLayerSources, layerIdsCheck_arr, hb, List.find?, hb]
    | false =>
      simp only [scanLayerSources, layerIdsCheck_arr, hb, List.find?, ih2]

/-- Scalar JSON values: neither arrays nor objects. -/
def isScalar : JsonValue → Bool
  | .arr _ => false
  | .obj _ => false
  | _ => true

/-- The whole-service reviver leaves scalars unchanged. -/
theorem sourceReviver_scalar (u key : String) (v : JsonValue)
    (h : isScalar v = true) : sourceReviver u key v = v := by
  cases v with
  | arr vs => simp [isScalar] at h
  | obj fs => simp [isScalar] at h
  | str s => rfl
  | num n => rfl
  | bool b => rfl
  | null => rfl

/-- The reviver walk applies the reviver directly to a scalar. -/
theorem walkVal_scalar (f : String → JsonValue → JsonValue) (key : String)
    (v : JsonValue) (h : isScalar v = true) : walkVal f key v = f key v := by
  cases v with
  | arr vs => simp [isScalar] at h
  | obj fs => simp [isScalar] at h
  | str s => rfl
  | num n => rfl
  | bool b => rfl
  | null => rfl

/-- The whole-service walk does not disturb an array of scalars below the
reviver call on the array itself. -/
theorem walkArr_sourceReviver_scalars (u : String) (i : Nat)
    (vs : List JsonValue) (h : ∀ x ∈ vs, isScalar x = true) :
    walkArr (sourceReviver u) i vs = vs := by
  induction vs generalizing i with
  | nil => rfl
  | cons a as ih =>
    have ha := h a (List.mem_cons_self a as)
    have ih2 := ih (i + 1) (fun x hx => h x (List.mem_cons_of_mem _ hx))
    simp only [walkArr, ih2, walkVal_scalar _ _ _ ha,
      sourceReviver_scalar _ _ _ ha]

/-- Shape of a top-level dataset value in the intended layer-sources
document: a scalar, or an array of scalars. -/
def topShape (v : JsonValue) : Prop :=
  isScalar v = true ∨ ∃ vs, v = JsonValue.arr vs ∧ ∀ x ∈ vs, isScalar x = true

/-- Transformation the whole-service mode applies to one top-level
dataset value of that shape. -/
def topTransform (u : String) (v : JsonValue) : JsonValue :=
  match v with
  | .arr (x :: _) =>
    .str (u ++ "/exts/" ++ layerMetadataCapability ++ "/metadata/" ++
      jsToString x)
  | v => v

/-- Scalars are fixed points of the top-level transformation. -/
theorem topTransform_scalar (u : String) (v : JsonValue)
    (h : isScalar v = true) : topTransform u v = v := by
  cases v with
  | arr vs => simp [isScalar] at h
  | obj fs => simp [isScalar] at h
  | str s => rfl
  | num n => rfl
  | bool b => rfl
  | null => rfl

/-- On a field list of top-shaped values, the whole-service walk is the
per-field top-level transformation. -/
theorem walkObj_sourceReviver_top (u : String)
    (fs : List (String × JsonValue)) (h : ∀ kv ∈ fs, topShape kv.2) :
    walkObj (sourceReviver u) fs =
      fs.map (fun kv => (kv.1, topTransform u kv.2)) := by
  induction fs with
  | nil => rfl
  | cons kv rest ih =>
    obtain ⟨k, v⟩ := kv
    have hv := h (k, v) (List.mem_cons_self _ rest)
    have ih2 := ih (fun x hx => h x (List.mem_cons_of_mem _ hx))
    have hx : walkVal (sourceReviver u) k v = topTransform u v := by
      rcases hv with hsc | ⟨vs, rfl, hall⟩
      · rw [walkVal_scalar _ _ _ hsc, sourceReviver_scalar _ _ _ hsc,
          topTransform_scalar _ _ hsc]
      · show sourceReviver u k (.arr (walkArr (sourceReviver u) 0 vs)) =
          topTransform u (.arr vs)
        rw [walkArr_sourceReviver_scalars u 0 vs hall]
        cases vs with
        | nil => rfl
        | cons x xs => rfl
    simp only [walkObj, List.map_cons, ih2, hx]

/-- Characterisation of the case-insensitive literal matcher: it consumes
a prefix whose ASCII lower-casing is that of the literal. -/
theorem matchCI_some (ls : List Char) : ∀ (cs rest : List Char),
    matchCI ls cs = some rest ↔
      ∃ pre, cs = pre ++ rest ∧
        pre.map asciiLowerChar = ls.map asciiLowerChar := by
  induction ls with
  | nil =>
    intro cs rest
    simp only [matchCI, Option.some_inj, List.map_nil]
    constructor
    · rintro rfl
      exact ⟨[], rfl, rfl⟩
    · rintro ⟨pre, rfl, hpre⟩
      have hp : pre = [] := by
        cases pre with
        | nil => rfl
        | cons a as => simp at hpre
      rw [hp]
      rfl
  | cons l ls ih =>
    intro cs rest
    cases cs with
    | nil =>
      simp only [matchCI]
      constructor
      · intro h
        exact absurd h (by simp)
      · rintro ⟨pre, hpre, hmap⟩
        have h1 : pre = [] := by
          cases pre with
          | nil => rfl
          | cons a as => simp at hpre
        rw [h1] at hmap
        simp at hmap
    | cons c cs' =>
      by_cases hl : asciiLowerChar l = asciiLowerChar c
      · rw [show matchCI (l :: ls) (c :: cs') =
            (if asciiLowerChar l = asciiLowerChar c then matchCI ls cs'
             else none) from rfl, if_pos hl, ih cs' rest]
        constructor
        · rintro ⟨pre, rfl, hm⟩
          exact ⟨c :: pre, rfl, by simp [hm, hl]⟩
        · rintro ⟨pre, heq, hm⟩
          cases pre with
          | nil => simp at hm
          | cons p ps =>
            rw [List.cons_append] at heq
            injection heq with h1 h2
            subst h1
            refine ⟨ps, h2, ?_⟩
            simp only [List.map_cons] at hm
            exact (List.cons_eq_cons.mp hm).2
      · rw [show matchCI (l :: ls) (c :: cs') =
            (if asciiLowerChar l = asciiLowerChar c then matchCI ls cs'
             else none) from rfl, if_neg hl]
        constructor
        · intro h
          exact absurd h (by simp)
        · rintro ⟨pre, heq, hm⟩
          cases pre with
          | nil => simp at hm
          | cons p ps =>
            rw [List.cons_append] at heq
            injection heq with h1 h2
            subst h1
            simp only [List.map_cons] at hm
            exact absurd (List.cons_eq_cons.mp hm).1.symm hl

/-- Full case-insensitive literal equality via the matcher. -/
theorem matchCI_nil_iff (ls cs : List Char) :
    matchCI ls cs = some [] ↔
      cs.map asciiLowerChar = ls.map asciiLowerChar := by
  rw [matchCI_some ls cs []]
  constructor
  · rintro ⟨pre, rfl, hm⟩
    simpa using hm
  · intro h
    exact ⟨cs, by simp, h⟩

/-- Equality with a string literal through the list constructor. -/
theorem stringMk_eq_iff (l : List Char) (s : String) :
    String.mk l = s ↔ l = s.data := by
  cases s with
  | mk d =>
    constructor
    · intro h
      injection h
    · intro h
      rw [h]

/-- Unfolding of a boolean match on an optional remainder. -/
theorem match_option_bool_true (E : List Char → Bool)
    (o : Option (List Char)) :
    ((match o with | some rest => E rest | none => false) = true) ↔
      ∃ rest, o = some rest ∧ E rest = true := by
  cases o with
  | none => simp
  | some r => simp

/-- ASCII lower-casing equality against a string constant, through the
list constructor. -/
theorem asciiLower_eq_iff (key s : String) :
    asciiLower key = s ↔ key.data.map asciiLowerChar = s.data :=
  stringMk_eq_iff (key.data.map asciiLowerChar) s

/-- The anchored, case-insensitive alternation `listPropNames` matches
exactly the four field names `keywords`, `supportedExtensions`,
`supportedImageFormatTypes` and `capabilities`, up to ASCII case. -/
theorem listPropNamesTest_iff (key : String) :
    listPropNamesTest key = true ↔
      asciiLower key = "keywords" ∨ asciiLower key = "supportedextensions" ∨
      asciiLower key = "supportedimageformattypes" ∨
      asciiLower key = "capabilities" := by
  have hlit1 : ("keywords").data.map asciiLowerChar = ("keywords").data := by
    decide
  have hlit2 : ("supported").data.map asciiLowerChar =
      ("supported").data := by decide
  have hlit3 : ("Extensions").data.map asciiLowerChar =
      ("extensions").data := by decide
  have hlit4 : ("ImageFormatTypes").data.map asciiLowerChar =
      ("imageformattypes").data := by decide
  have hlit5 : ("capabilities").data.map asciiLowerChar =
      ("capabilities").data := by decide
  rw [asciiLower_eq_iff, asciiLower_eq_iff, asciiLower_eq_iff,
    asciiLower_eq_iff]
  unfold listPropNamesTest
  rw [Bool.or_eq_true, Bool.or_eq_true,
    match_option_bool_true
      (fun rest => (matchCI ("Extensions").data rest = some []) ||
        (matchCI ("ImageFormatTypes").data rest = some [])) ]
  simp only [decide_eq_true_eq, Bool.or_eq_true]
  constructor
  · rintro ((hk | ⟨rest, hsup, hE⟩) | hc)
    · left
      rw [(matchCI_nil_iff _ _).mp hk, hlit1]
    · right
      obtain ⟨pre, hkeq, hpre⟩ := (matchCI_some _ _ _).mp hsup
      rw [hlit2] at hpre
      rcases hE with hExt | hIft
      · left
        have hr := (matchCI_nil_iff _ _).mp hExt
        rw [hlit3] at hr
        rw [hkeq, List.map_append, hpre, hr]
        decide
      · right
        left
        have hr := (matchCI_nil_iff _ _).mp hIft
        rw [hlit4] at hr
        rw [hkeq, List.map_append, hpre, hr]
        decide
    · right
      right
      right
      rw [(matchCI_nil_iff _ _).mp hc, hlit5]
  · rintro (hk | hs1 | hs2 | hc)
    · left
      left
      rw [matchCI_nil_iff, hlit1]
      exact hk
    · left
      right
      refine ⟨key.data.drop 9, ?_, Or.inl ?_⟩
      · rw [matchCI_some]
        refine ⟨key.data.take 9, (List.take_append_drop 9 key.data).symm, ?_⟩
        rw [hlit2, List.map_take, hs1]
        decide
      · rw [matchCI_nil_iff, hlit3, List.map_drop, hs1]
        decide
    · left
      right
      refine ⟨key.data.drop 9, ?_, Or.inr ?_⟩
      · rw [matchCI_some]
        refine ⟨key.data.take 9, (List.take_append_drop 9 key.data).symm, ?_⟩
        rw [hlit2, List.map_take, hs2]
        decide
      · rw [matchCI_nil_iff, hlit4, List.map_drop, hs2]
        decide
    · right
      rw [matchCI_nil_iff, hlit5]
      exact hc

/-- A body whose first character is `<` fails `JSON.parse` immediately
with the unexpected-token message at position 0. -/
theorem jsonParse_lt (rest : List Char) :
    jsonParse (String.mk ('<' :: rest)) =
      .error "Unexpected token < in JSON at position 0" := by
  simp [jsonParse, skipWs, parseVal, unexpectedTok, isJsonWs, quoteChar,
    lbraceChar, isJsDigit]
  rfl

/-- Fetch environment that fails every request. -/
def emptyFetchEnv : FetchEnv := ⟨fun _ => none⟩

/-- C3 (amended): for every URL of the shape `base/digits` or
`base/digits/` with a non-empty, line-terminator-free `base` and
non-empty digit run, the parser returns `base` and the digits' value as
the layer id; for every other non-empty, line-terminator-free URL except
the bare `"/"`, the layer id is null and the base is the input with one
trailing slash removed.  (The claim as frozen also asserted this for
digit segments with nothing before them, which the code refutes: see the
counterexample at `"/5"`.) -/
theorem claim3_url_split :
    (∀ b ds t : List Char, b ≠ [] →
      (∀ c ∈ b, isLineTerminator c = false) → ds ≠ [] →
      (∀ c ∈ ds, isJsDigit c = true) → (t = [] ∨ t = ['/']) →
      parseUrl (String.mk (b ++ '/' :: (ds ++ t))) =
        some (String.mk b, some (digitsToNat ds)))
    ∧ (∀ s : List Char, s ≠ [] → s ≠ ['/'] →
      (∀ c ∈ s, isLineTerminator c = false) → hasDigitTailB s = false →
      parseUrl (String.mk s) = some (String.mk (trimSlashL s), none)) := by
  constructor
  · intro b ds t hb hlt hne hds ht
    unfold parseUrl
    rw [show (String.mk (b ++ '/' :: (ds ++ t))).data =
        b ++ '/' :: (ds ++ t) from rfl,
      matchRe_digit_tail b ds t hb hlt hne hds ht]
    rfl
  · intro s hs hs2 hlt hnd
    unfold parseUrl
    rw [show (String.mk s).data = s from rfl,
      matchRe_no_digit_tail s hs hs2 hlt hnd]
    rfl

/-- C3 witness: a layer URL `a/12/` splits into base `a` and layer 12,
and the claim's own example `MapServer0` (digits inside a word) yields a
null layer id. -/
theorem claim3_witness :
    parseUrl "a/12/" = some ("a", some 12) ∧
      parseUrl "MapServer0" = some ("MapServer0", none) := by
  constructor
  · exact claim3_url_split.1 ['a'] ['1', '2'] ['/'] (by decide) (by decide)
      (by decide) (by decide) (Or.inr rfl)
  · exact claim3_url_split.2 ("MapServer0").data (by decide) (by decide)
      (by decide) (by decide)

/-- C3 counterexample: for the input `/5`, whose final path segment is
the pure digit string `5`, the parser returns a null layer id and base
`/5` — not layer 5 with base `""` as the claim requires — because group
1 of the regular expression must consume at least one character. -/
theorem claim3_counterexample :
    parseUrl "/5" = some ("/5", none) ∧
      parseUrl "/5" ≠ some ("", some 5) := by
  constructor
  · rfl
  · intro h
    rw [show parseUrl "/5" = some (("/5" : String), none) from rfl] at h
    simp at h

/-- C9 (amended): `getMapServiceMetadata` raises `Unrecognized URL
format.` exactly when `mapServiceRe` fails, and the match succeeds on
every non-empty input containing no line terminator (LF, CR, U+2028,
U+2029); an input consisting of or containing only line terminators can
still reach the error branch, so mere non-emptiness is not enough. -/
theorem claim9_error_iff_unmatched :
    (∀ (env : FetchEnv) (url : String), matchMapServiceRe url.data = none →
      getMapServiceMetadata env url =
        (.error (.generic "Unrecognized URL format."), []))
    ∧ (∀ s : List Char, s ≠ [] → (∀ c ∈ s, isLineTerminator c = false) →
      (matchMapServiceRe s).isSome = true) := by
  constructor
  · intro env url h
    simp only [getMapServiceMetadata, h]
  · exact matchRe_isSome

/-- C9 witness: the one-character URL `a` is matched, while the
unmatched input `"\n"` takes the error branch. -/
theorem claim9_witness :
    (matchMapServiceRe ("a").data).isSome = true ∧
      getMapServiceMetadata emptyFetchEnv "\n" =
        (.error (.generic "Unrecognized URL format."), []) :=
  ⟨claim9_error_iff_unmatched.2 ("a").data (by decide) (by decide),
   claim9_error_iff_unmatched.1 emptyFetchEnv "\n" rfl⟩

/-- C9 counterexample: the input `"\n"` is non-empty, yet the grammar
matches neither branch and `getMapServiceMetadata` throws `Unrecognized
URL format.`, refuting unreachability of the error branch under the
non-emptiness precondition alone. -/
theorem claim9_counterexample :
    ("\n" : String) ≠ "" ∧
      getMapServiceMetadata emptyFetchEnv "\n" =
        (.error (.generic "Unrecognized URL format."), []) := by
  exact ⟨by decide, rfl⟩

/-- Invariant of the ServiceDescriptor data model: `supportedExtensions`
is absent, or it is an array of strings (the shape the reviver
produces). -/
def descriptorInvariant (fs : List (String × JsonValue)) : Prop :=
  match lookupField fs "supportedExtensions" with
  | none => True
  | some (.arr xs) => ∀ x ∈ xs, ∃ s, x = JsonValue.str s
  | some _ => False

/-- C5: on every descriptor satisfying the data-model invariant,
`supportsLayerMetadata` never throws, and it returns `true` exactly when
`supportedExtensions` is present as a (necessarily non-empty) list
containing the exact string `LayerMetadata`. -/
theorem claim5_supports_layer_metadata (fs : List (String × JsonValue))
    (h : descriptorInvariant fs) :
    ∃ b, supportsLayerMetadata (.obj fs) = .ok b ∧
      (b = true ↔ ∃ xs, lookupField fs "supportedExtensions" =
        some (.arr xs) ∧ xs ≠ [] ∧
        JsonValue.str layerMetadataCapability ∈ xs) := by
  unfold descriptorInvariant at h
  have hdef : supportsLayerMetadata (.obj fs) =
      (match lookupField fs "supportedExtensions" with
       | none => .ok false
       | some v =>
         if jsTruthy v then jsIncludesStr v layerMetadataCapability
         else .ok false) := rfl
  rw [hdef]
  cases hl : lookupField fs "supportedExtensions" with
  | none =>
    refine ⟨false, rfl, ?_⟩
    simp
  | some v =>
    rw [hl] at h
    cases v with
    | arr xs =>
      refine ⟨xs.any (fun x =>
        match x with
        | .str s => s = layerMetadataCapability
        | _ => false), by simp [jsTruthy, jsIncludesStr], ?_⟩
      constructor
      · intro hany
        rw [List.any_eq_true] at hany
        obtain ⟨x, hx, hmx⟩ := hany
        match x, hmx with
        | .str s, hmx =>
          have hs : s = layerMetadataCapability := by simpa using hmx
          subst hs
          exact ⟨xs, rfl, fun he => by simp [he] at hx, hx⟩
      · rintro ⟨xs', hxs', hne, hmem⟩
        injection hxs' with h1
        injection h1 with h2
        subst h2
        rw [List.any_eq_true]
        exact ⟨_, hmem, by simp⟩
    | str s => exact h.elim
    | num n => exact h.elim
    | bool b => exact h.elim
    | null => exact h.elim
    | obj fs2 => exact h.elim

/-- Descriptor field list used by the C5 witness. -/
def exDescriptorFields : List (String × JsonValue) :=
  [("currentVersion", .num 10),
   ("supportedExtensions", .arr [.str "SomeOther", .str "LayerMetadata"])]

/-- C5 witness: a concrete descriptor satisfying the invariant, on which
the check is `.ok` and the characterisation holds. -/
theorem claim5_witness :
    descriptorInvariant exDescriptorFields ∧
      ∃ b, supportsLayerMetadata (.obj exDescriptorFields) = .ok b ∧
        (b = true ↔ ∃ xs, lookupField exDescriptorFields
          "supportedExtensions" = some (.arr xs) ∧ xs ≠ [] ∧
          JsonValue.str layerMetadataCapability ∈ xs) := by
  have hinv : descriptorInvariant exDescriptorFields := by
    show ∀ x ∈ [JsonValue.str "SomeOther", JsonValue.str "LayerMetadata"],
      ∃ s, x = JsonValue.str s
    intro x hx
    simp only [List.mem_cons, List.not_mem_nil, or_false] at hx
    rcases hx with rfl | rfl
    · exact ⟨_, rfl⟩
    · exact ⟨_, rfl⟩
  exact ⟨hinv, claim5_supports_layer_metadata exDescriptorFields hinv⟩

/-- Service URL shared by the concrete examples. -/
def exServiceUrl : String :=
  "https://gis.example.com/arcgis/rest/services/Svc/MapServer"

/-- Descriptor body advertising the layer-metadata extension inside a
comma-separated list. -/
def exDescBody : String :=
  "\x7b\"supportedExtensions\":\"SomeOther, LayerMetadata\"\x7d"

/-- Descriptor body without the layer-metadata extension. -/
def exDescBodyNoExt : String :=
  "\x7b\"supportedExtensions\":\"SomeOther\"\x7d"

/-- Layer-sources body of the worked example. -/
def exLsBody : String := "\x7b\"A\":[0,1],\"B\":[2]\x7d"

/-- C6: whenever the fetched descriptor parses and the capability check
settles on `false`, the pipeline resolves to `null` (the non-error
`.ok none`), and the descriptor request is the only request issued. -/
theorem claim6_unsupported_null (env : FetchEnv) (url : String)
    (pre : List Char) (cap : Option (List Char)) (descBody : String)
    (raw : JsonValue)
    (h1 : matchMapServiceRe url.data = some (pre, cap))
    (h2 : env.fetch (String.mk pre ++ "?f=json") = some descBody)
    (h3 : jsonParse descBody = .ok raw)
    (h4 : supportsLayerMetadata (applyReviver reviver raw) = .ok false) :
    getMapServiceMetadata env url =
      (.ok none, [String.mk pre ++ "?f=json"]) := by
  simp only [getMapServiceMetadata, h1, getMapServiceData, h2, h3, h4,
    Bool.false_eq_true, if_false]

/-- Environment answering only the descriptor request, without the
capability. -/
def exEnvNoExt : FetchEnv :=
  ⟨fun u =>
    if u = exServiceUrl ++ "?f=json" then some exDescBodyNoExt else none⟩

/-- C6 witness: the concrete unsupported service resolves to `null`
after a single request. -/
theorem claim6_witness :
    getMapServiceMetadata exEnvNoExt exServiceUrl =
      (.ok none, [exServiceUrl ++ "?f=json"]) :=
  claim6_unsupported_null exEnvNoExt exServiceUrl (exServiceUrl).data none
    exDescBodyNoExt (.obj [("supportedExtensions", .str "SomeOther")])
    rfl rfl rfl rfl

/-- C7: when the capability check settles on `true`, the second request
is always issued at the trimmed original input URL followed by
`/exts/LayerMetadata/layerSources?f=json`, whatever the second response
is and in both resolution modes. -/
theorem claim7_layer_sources_url (env : FetchEnv) (url : String)
    (pre : List Char) (cap : Option (List Char)) (descBody : String)
    (raw : JsonValue)
    (h1 : matchMapServiceRe url.data = some (pre, cap))
    (h2 : env.fetch (String.mk pre ++ "?f=json") = some descBody)
    (h3 : jsonParse descBody = .ok raw)
    (h4 : supportsLayerMetadata (applyReviver reviver raw) = .ok true) :
    (getMapServiceMetadata env url).2 =
      [String.mk pre ++ "?f=json",
       trimTrailingSlash url ++ "/exts/" ++ layerMetadataCapability ++
         "/layerSources?f=json"] := by
  simp only [getMapServiceMetadata, h1, getMapServiceData, h2, h3, h4,
    if_true]
  cases hf : env.fetch (trimTrailingSlash url ++ "/exts/" ++
      layerMetadataCapability ++ "/layerSources?f=json") with
  | none => simp [hf]
  | some body =>
    cases cap with
    | none =>
      cases hp : jsonParse body with
      | error e => simp [hf, hp]
      | ok v => simp [hf, hp]
    | some ds =>
      cases hp : jsonParse body with
      | error e => simp [hf, hp]
      | ok v =>
        cases hsc : scanLayerSources (String.mk pre) (digitsToNat ds)
            (forInFields v) with
        | error e => simp [hf, hp, hsc]
        | ok r => simp [hf, hp, hsc]

/-- Environment with the supported descriptor and the worked
layer-sources document, for both whole-service and single-layer URLs. -/
def exEnvWhole : FetchEnv :=
  ⟨fun u =>
    if u = exServiceUrl ++ "?f=json" then some exDescBody
    else if u = exServiceUrl ++ "/exts/LayerMetadata/layerSources?f=json"
      then some exLsBody
    else if u = exServiceUrl ++ "/0/exts/LayerMetadata/layerSources?f=json"
      then some exLsBody
    else none⟩

/-- C7 witness: for the single-layer input `…/MapServer/0/`, the second
request keeps the `/0` segment of the original URL (one trailing slash
trimmed) instead of using the computed base URL. -/
theorem claim7_witness :
    (getMapServiceMetadata exEnvWhole (exServiceUrl ++ "/0/")).2 =
      [exServiceUrl ++ "?f=json",
       trimTrailingSlash (exServiceUrl ++ "/0/") ++ "/exts/" ++
         layerMetadataCapability ++ "/layerSources?f=json"] :=
  claim7_layer_sources_url exEnvWhole (exServiceUrl ++ "/0/")
    (exServiceUrl).data (some ['0']) exDescBody
    (.obj [("supportedExtensions", .str "SomeOther, LayerMetadata")])
    rfl rfl rfl rfl

/-- C8: when the descriptor response body starts with `<`, the pipeline
rejects with the propagated `SyntaxError` message (which begins with
`Unexpected token <`) instead of resolving to `null`. -/
theorem claim8_parse_error_propagates (env : FetchEnv) (url : String)
    (pre : List Char) (cap : Option (List Char)) (rest : List Char)
    (h1 : matchMapServiceRe url.data = some (pre, cap))
    (h2 : env.fetch (String.mk pre ++ "?f=json") =
      some (String.mk ('<' :: rest))) :
    getMapServiceMetadata env url =
      (.error (.parseFail "Unexpected token < in JSON at position 0"),
        [String.mk pre ++ "?f=json"]) ∧
      ∃ t, "Unexpected token < in JSON at position 0" =
        "Unexpected token <" ++ t := by
  refine ⟨?_, ⟨" in JSON at position 0", rfl⟩⟩
  simp only [getMapServiceMetadata, h1, getMapServiceData, h2, jsonParse_lt]

/-- Environment whose descriptor request returns an HTML page. -/
def exEnvHtml : FetchEnv :=
  ⟨fun u =>
    if u = exServiceUrl ++ "?f=json" then some "<html></html>" else none⟩

/-- C8 witness: the HTML descriptor response makes the pipeline reject
with the unexpected-token message after the single descriptor request. -/
theorem claim8_witness :
    getMapServiceMetadata exEnvHtml exServiceUrl =
      (.error (.parseFail "Unexpected token < in JSON at position 0"),
        [exServiceUrl ++ "?f=json"]) ∧
      ∃ t, "Unexpected token < in JSON at position 0" =
        "Unexpected token <" ++ t :=
  claim8_parse_error_propagates exEnvHtml exServiceUrl (exServiceUrl).data
    none ("html></html>").data rfl rfl

/-- Membership through the index insertion step. -/
theorem mem_insertByIndex (kv x : String × JsonValue)
    (l : List (String × JsonValue)) :
    x ∈ insertByIndex kv l ↔ x = kv ∨ x ∈ l := by
  induction l with
  | nil => simp [insertByIndex]
  | cons a rest ih =>
    simp only [insertByIndex]
    split
    · simp only [List.mem_cons]
    · simp only [List.mem_cons, ih]
      tauto

/-- The index sort preserves membership. -/
theorem mem_sortByIndex (x : String × JsonValue)
    (l : List (String × JsonValue)) : x ∈ sortByIndex l ↔ x ∈ l := by
  induction l with
  | nil => simp [sortByIndex]
  | cons a rest ih =>
    simp only [sortByIndex, mem_insertByIndex, ih, List.mem_cons]

/-- Every entry of the enumeration-ordered field list is a field of the
object. -/
theorem mem_jsEnumFields (x : String × JsonValue)
    (fs : List (String × JsonValue)) (hx : x ∈ jsEnumFields fs) :
    x ∈ fs := by
  rcases List.mem_append.mp hx with h | h
  · exact List.mem_of_mem_filter ((mem_sortByIndex x _).mp h)
  · exact List.mem_of_mem_filter h

/-- With no array-index key present, enumeration order is document
order. -/
theorem jsEnumFields_no_index (fs : List (String × JsonValue))
    (h : ∀ kv ∈ fs, isArrayIndexKey kv.1 = false) : jsEnumFields fs = fs := by
  have h1 : fs.filter (fun kv => isArrayIndexKey kv.1) = [] := by
    rw [List.filter_eq_nil_iff]
    intro a ha
    simp [h a ha]
  have h2 : fs.filter (fun kv => !isArrayIndexKey kv.1) = fs := by
    rw [List.filter_eq_self]
    intro a ha
    simp [h a ha]
  rw [jsEnumFields, h1, h2]
  rfl

/-- C1 (amended): in single-layer mode, with the layer-sources response
an object of array-valued datasets, the pipeline result is the
first-match search over the `for..in` enumeration order — dataset names
that are canonical array indices first, ascending, then the remaining
names in document order: the first dataset in that order whose array
contains the layer id is returned as a one-entry object mapping it to
`{baseUrl}/exts/LayerMetadata/metadata/{layerId}`, and with no such
dataset the result is `null`.  When no dataset name is a canonical
array index, enumeration order coincides with document order and the
frozen claim's serialized-order description holds; with numeric dataset
names it does not (see the counterexample). -/
theorem claim1_single_layer_enum_order :
    (∀ (env : FetchEnv) (url : String) (pre ds : List Char)
      (descBody lsBody : String) (raw : JsonValue)
      (fs : List (String × JsonValue)),
      matchMapServiceRe url.data = some (pre, some ds) →
      env.fetch (String.mk pre ++ "?f=json") = some descBody →
      jsonParse descBody = .ok raw →
      supportsLayerMetadata (applyReviver reviver raw) = .ok true →
      env.fetch (trimTrailingSlash url ++ "/exts/" ++
        layerMetadataCapability ++ "/layerSources?f=json") = some lsBody →
      jsonParse lsBody = .ok (.obj fs) →
      (∀ kv ∈ fs, ∃ vs, kv.2 = JsonValue.arr vs) →
      getMapServiceMetadata env url =
        (.ok (match (jsEnumFields fs).find?
            (fun kv => layerIdsHasNum (digitsToNat ds) kv.2) with
          | some kv => some (.obj [(kv.1,
              .str (makeMetadataUrl (String.mk pre) (digitsToNat ds)))])
          | none => none),
         [String.mk pre ++ "?f=json",
          trimTrailingSlash url ++ "/exts/" ++ layerMetadataCapability ++
            "/layerSources?f=json"]))
    ∧ (∀ fs : List (String × JsonValue),
      (∀ kv ∈ fs, isArrayIndexKey kv.1 = false) → jsEnumFields fs = fs) := by
  constructor
  · intro env url pre ds descBody lsBody raw fs h1 h2 h3 h4 h5 h6 h7
    have h7e : ∀ kv ∈ jsEnumFields fs, ∃ vs, kv.2 = JsonValue.arr vs :=
      fun kv hkv => h7 kv (mem_jsEnumFields kv fs hkv)
    have hscan := scanLayerSources_arrays (String.mk pre) (digitsToNat ds)
      (jsEnumFields fs) h7e
    simp only [getMapServiceMetadata, h1, getMapServiceData, h2, h3, h4,
      if_true, h5, Option.map_some', h6, forInFields, hscan]
  · exact jsEnumFields_no_index

/-- Environment used by the single-layer witness: the descriptor plus
the layer-sources document, served for the layer-1 and layer-99 inputs. -/
def exEnvSingle : FetchEnv :=
  ⟨fun u =>
    if u = exServiceUrl ++ "?f=json" then some exDescBody
    else if u = exServiceUrl ++ "/1/exts/LayerMetadata/layerSources?f=json"
      then some exLsBody
    else if u = exServiceUrl ++ "/99/exts/LayerMetadata/layerSources?f=json"
      then some exLsBody
    else none⟩

/-- C1 witness: on the worked document `A ↦ [0,1], B ↦ [2]` (no numeric
dataset names, so enumeration order is document order), layer 1 resolves
to the one-entry map for `A`, and layer 99 resolves to `null`. -/
theorem claim1_witness :
    getMapServiceMetadata exEnvSingle (exServiceUrl ++ "/1") =
      (.ok (some (.obj [("A",
        .str (exServiceUrl ++ "/exts/LayerMetadata/metadata/1"))])),
       [exServiceUrl ++ "?f=json",
        exServiceUrl ++ "/1/exts/LayerMetadata/layerSources?f=json"]) ∧
    getMapServiceMetadata exEnvSingle (exServiceUrl ++ "/99") =
      (.ok none,
       [exServiceUrl ++ "?f=json",
        exServiceUrl ++ "/99/exts/LayerMetadata/layerSources?f=json"]) := by
  have hfs : ∀ kv ∈ ([("A", JsonValue.arr [.num 0, .num 1]),
      ("B", JsonValue.arr [.num 2])] : List (String × JsonValue)),
      ∃ vs, kv.2 = JsonValue.arr vs := by
    intro kv hkv
    simp only [List.mem_cons, List.not_mem_nil, or_false] at hkv
    rcases hkv with rfl | rfl
    · exact ⟨_, rfl⟩
    · exact ⟨_, rfl⟩
  constructor
  · exact claim1_single_layer_enum_order.1 exEnvSingle (exServiceUrl ++ "/1")
      (exServiceUrl).data ['1'] exDescBody exLsBody
      (.obj [("supportedExtensions", .str "SomeOther, LayerMetadata")])
      [("A", .arr [.num 0, .num 1]), ("B", .arr [.num 2])]
      rfl rfl rfl rfl rfl rfl hfs
  · exact claim1_single_layer_enum_order.1 exEnvSingle (exServiceUrl ++ "/99")
      (exServiceUrl).data ['9', '9'] exDescBody exLsBody
      (.obj [("supportedExtensions", .str "SomeOther, LayerMetadata")])
      [("A", .arr [.num 0, .num 1]), ("B", .arr [.num 2])]
      rfl rfl rfl rfl rfl rfl hfs

/-- Layer-sources body whose dataset names are numeric strings in
descending document order. -/
def exLsBodyNumericKeys : String := "\x7b\"2\":[7],\"1\":[7]\x7d"

/-- Environment serving the numeric-keyed layer-sources document for the
layer-7 input. -/
def exEnvNumericKeys : FetchEnv :=
  ⟨fun u =>
    if u = exServiceUrl ++ "?f=json" then some exDescBody
    else if u = exServiceUrl ++ "/7/exts/LayerMetadata/layerSources?f=json"
      then some exLsBodyNumericKeys
    else none⟩

/-- C1 counterexample: for the layer-sources document `(2 and 1 in that
serialized order, both containing layer 7)`, `for..in` visits the
array-index key `1` before `2`, so the program returns the `1` entry —
not the first-serialized `2` entry the frozen claim requires. -/
theorem claim1_counterexample :
    getMapServiceMetadata exEnvNumericKeys (exServiceUrl ++ "/7") =
      (.ok (some (.obj [("1",
        .str (exServiceUrl ++ "/exts/LayerMetadata/metadata/7"))])),
       [exServiceUrl ++ "?f=json",
        exServiceUrl ++ "/7/exts/LayerMetadata/layerSources?f=json"]) ∧
      JsonValue.obj [("1",
        .str (exServiceUrl ++ "/exts/LayerMetadata/metadata/7"))] ≠
      JsonValue.obj [("2",
        .str (exServiceUrl ++ "/exts/LayerMetadata/metadata/7"))] := by
  refine ⟨rfl, ?_⟩
  intro h
  simp at h

/-- C2 (amended): in whole-service mode the parse applies the reviver
recursively; on a layer-sources object whose top-level values are
scalars or arrays of scalars, every non-empty-array property is replaced
by the metadata URL of its first element and every other such property
is unchanged — but object-valued properties are transformed inside as
well (see the counterexample), so the frozen claim's blanket "non-array
values pass through unchanged" holds only below that proviso.  The
worked example resolves `A ↦ …/metadata/0`, `B ↦ …/metadata/2`. -/
theorem claim2_whole_service_transform :
    (∀ (u : String) (fs : List (String × JsonValue)),
      (∀ kv ∈ fs, topShape kv.2) →
      applyReviver (sourceReviver u) (.obj fs) =
        .obj (fs.map (fun kv => (kv.1, topTransform u kv.2))))
    ∧ getMapServiceMetadata exEnvWhole exServiceUrl =
        (.ok (some (.obj
          [("A", .str (exServiceUrl ++ "/exts/LayerMetadata/metadata/0")),
           ("B", .str (exServiceUrl ++ "/exts/LayerMetadata/metadata/2"))])),
         [exServiceUrl ++ "?f=json",
          exServiceUrl ++ "/exts/LayerMetadata/layerSources?f=json"]) := by
  constructor
  · intro u fs h
    show sourceReviver u "" (.obj (walkObj (sourceReviver u) fs)) = _
    rw [walkObj_sourceReviver_top u fs h]
    rfl
  · rfl

/-- C2 witness: on the worked top-level document (plus a scalar field),
array properties become first-element metadata URLs and the scalar is
untouched. -/
theorem claim2_witness :
    applyReviver (sourceReviver "B")
      (.obj [("A", .arr [.num 0, .num 1]), ("Z", .arr [.num 2]),
        ("note", .str "n/a")]) =
    .obj [("A", .str "B/exts/LayerMetadata/metadata/0"),
      ("Z", .str "B/exts/LayerMetadata/metadata/2"),
      ("note", .str "n/a")] := by
  have h := claim2_whole_service_transform.1 "B"
    [("A", .arr [.num 0, .num 1]), ("Z", .arr [.num 2]),
      ("note", .str "n/a")]
    (by
      intro kv hkv
      simp only [List.mem_cons, List.not_mem_nil, or_false] at hkv
      rcases hkv with rfl | rfl | rfl
      · refine Or.inr ⟨_, rfl, ?_⟩
        intro x hx
        simp only [List.mem_cons, List.not_mem_nil, or_false] at hx
        rcases hx with rfl | rfl <;> rfl
      · refine Or.inr ⟨_, rfl, ?_⟩
        intro x hx
        simp only [List.mem_cons, List.not_mem_nil, or_false] at hx
        rcases hx with rfl
        rfl
      · exact Or.inl rfl)
  exact h

/-- Layer-sources body with a nested, object-valued dataset property. -/
def exLsBodyNested : String := "\x7b\"A\":\x7b\"x\":[5]\x7d\x7d"

/-- Environment serving the nested layer-sources document. -/
def exEnvWholeNested : FetchEnv :=
  ⟨fun u =>
    if u = exServiceUrl ++ "?f=json" then some exDescBody
    else if u = exServiceUrl ++ "/exts/LayerMetadata/layerSources?f=json"
      then some exLsBodyNested
    else none⟩

/-- C2 counterexample: for the layer-sources document
`{"A":{"x":[5]}}`, the property `A` is not array-valued, yet the result
changes it — the nested array is replaced inside — so the claim's
"non-array values pass through unchanged" fails as stated. -/
theorem claim2_counterexample :
    getMapServiceMetadata exEnvWholeNested exServiceUrl =
      (.ok (some (.obj [("A", .obj [("x",
        .str (exServiceUrl ++ "/exts/LayerMetadata/metadata/5"))])])),
       [exServiceUrl ++ "?f=json",
        exServiceUrl ++ "/exts/LayerMetadata/layerSources?f=json"]) ∧
      JsonValue.obj [("A", .obj [("x",
        .str (exServiceUrl ++ "/exts/LayerMetadata/metadata/5"))])] ≠
      JsonValue.obj [("A", .obj [("x", .arr [.num 5])])] := by
  refine ⟨rfl, ?_⟩
  intro h
  simp [exServiceUrl] at h

/-- C10: the whole-service substitution validates nothing about element
types — the reviver turns every non-empty array into the URL string
built from its (already revived) first element, stringified the
JavaScript way — and the walk applies it at every nesting depth, as the
two-level concrete document shows. -/
theorem claim10_nested_array_substitution :
    (∀ (u key : String) (id : JsonValue) (rest0 : List JsonValue),
      sourceReviver u key (.arr (id :: rest0)) =
        .str (u ++ "/exts/" ++ layerMetadataCapability ++ "/metadata/" ++
          jsToString id))
    ∧ (∀ (u key : String) (v : JsonValue) (vs : List JsonValue),
      walkVal (sourceReviver u) key (.arr (v :: vs)) =
        .str (u ++ "/exts/" ++ layerMetadataCapability ++ "/metadata/" ++
          jsToString (walkVal (sourceReviver u) "0" v)))
    ∧ applyReviver (sourceReviver "B")
        (.obj [("d", .obj [("deep", .arr [.str "seven", .null]),
          ("k", .bool true)])]) =
      .obj [("d", .obj
        [("deep", .str "B/exts/LayerMetadata/metadata/seven"),
         ("k", .bool true)])] := by
  refine ⟨fun u key id rest0 => rfl, fun u key v vs => rfl, rfl⟩

/-- Descriptor body exercising matched fields (mixed case), an
unmatched `supported…` field, nesting, and non-string values. -/
def exDescBodyMixed : String :=
  "\x7b\"KeyWords\":\"transportation, airports\",\"supportedQueryFormats\":\"JSON, AMF\",\"capabilities\":\"Map,Query,Data\",\"layers\":[\x7b\"keywords\":\"a, b\",\"id\":0\x7d],\"count\":3\x7d"

/-- Environment serving the mixed descriptor body. -/
def exEnvMixed : FetchEnv :=
  ⟨fun u =>
    if u = exServiceUrl ++ "?f=json" then some exDescBodyMixed else none⟩

set_option maxRecDepth 8192 in
/-- C4 (amended): the descriptor reviver splits string values of exactly
the fields `keywords`, `supportedExtensions`, `supportedImageFormatTypes`
and `capabilities` (ASCII case-insensitively) on a comma plus following
whitespace — pieces keep any whitespace standing before a comma — and
passes every other field and every non-string value through unchanged.
The frozen claim's "any field prefixed `supported`" and "trimmed
substrings" both fail: see the counterexample. -/
theorem claim4_descriptor_reviver :
    (∀ key : String, listPropNamesTest key = true ↔
      asciiLower key = "keywords" ∨ asciiLower key = "supportedextensions" ∨
      asciiLower key = "supportedimageformattypes" ∨
      asciiLower key = "capabilities")
    ∧ (∀ (key s : String), listPropNamesTest key = true →
      reviver key (.str s) = .arr ((splitCommaWs s).map .str))
    ∧ (∀ (key : String) (v : JsonValue), listPropNamesTest key = false →
      reviver key v = v)
    ∧ (∀ (key : String) (v : JsonValue), (∀ s, v ≠ .str s) →
      reviver key v = v)
    ∧ getMapServiceData exEnvMixed exServiceUrl = .ok (.obj
      [("KeyWords", .arr [.str "transportation", .str "airports"]),
       ("supportedQueryFormats", .str "JSON, AMF"),
       ("capabilities", .arr [.str "Map", .str "Query", .str "Data"]),
       ("layers", .arr [.obj [("keywords", .arr [.str "a", .str "b"]),
         ("id", .num 0)]]),
       ("count", .num 3)]) := by
  refine ⟨listPropNamesTest_iff, ?_, ?_, ?_, rfl⟩
  · intro key s h
    simp only [reviver, h, if_true]
  · intro key v h
    cases v with
    | str s => simp only [reviver, h, Bool.false_eq_true, if_false]
    | num n => rfl
    | bool b => rfl
    | null => rfl
    | arr vs => rfl
    | obj fs => rfl
  · intro key v h
    cases v with
    | str s => exact absurd rfl (h s)
    | num n => rfl
    | bool b => rfl
    | null => rfl
    | arr vs => rfl
    | obj fs => rfl

/-- C4 witness: a matched key in different case splits with whitespace
consumed after the comma; an unmatched key and a non-string value pass
through. -/
theorem claim4_witness :
    reviver "Capabilities" (.str "Map, Query") =
      .arr [.str "Map", .str "Query"] ∧
    reviver "id" (.str "x,y") = .str "x,y" ∧
    reviver "keywords" (.num 7) = .num 7 := by
  refine ⟨?_, ?_, ?_⟩
  · exact claim4_descriptor_reviver.2.1 "Capabilities" "Map, Query"
      (by decide)
  · exact claim4_descriptor_reviver.2.2.1 "id" (.str "x,y") (by decide)
  · exact claim4_descriptor_reviver.2.2.2.1 "keywords" (.num 7)
      (fun s h => JsonValue.noConfusion h)

/-- C4 counterexample: `supportedQueryFormats` is prefixed `supported`
yet passes through unchanged, and a split piece keeps the space before a
comma (`"a "` rather than a trimmed `"a"`), refuting the frozen claim's
prefix rule and its trimming. -/
theorem claim4_counterexample :
    reviver "supportedQueryFormats" (.str "JSON, AMF") =
        .str "JSON, AMF" ∧
      reviver "keywords" (.str "a ,b") = .arr [.str "a ", .str "b"] :=
  ⟨rfl, rfl⟩
